import Mathlib

/-!
# Verification of the copilot-lens session core

A shallow embedding of the session/search core of the `copilot-lens`
dashboard (TypeScript), together with proofs about the embedded
operations.  The embedding covers:

* the gap-capped duration computation repeated in `sessions.ts`
  (`getSession`), `claude-code-sessions.ts` (`getClaudeCodeSession`) and
  `vscode-sessions.ts` (`getVSCodeSession`);
* the TTL result cache (`cache.ts`);
* the Claude Code adapter (`claude-code-sessions.ts`): listing, detail
  loading, status derivation, the 200 MB size cap;
* the CLI adapter pieces of `sessions.ts` (`listCliSessions`,
  `detectStatus`, `getSession` routing);
* the full-text search index (`search.ts`).

Modelling conventions, used throughout:

* JavaScript date strings are observed by the code only through
  `new Date(s).getTime()` and truthiness, so they are modelled by `TStr`:
  `absent` (undefined / empty string, falsy), `invalid` (a non-empty
  string that parses to `NaN`), or `valid ms` (parses to `ms`).
* JavaScript numbers holding millisecond epochs are modelled as `Int`.
* Filesystem reads are modelled by explicit state records holding the
  observables the code actually reads (file sizes, mtimes, parsed lines);
  `try/catch` blocks that swallow I/O errors have no counterpart because
  the model's reads are total.
* A JSONL line is `blank` (empty), `malformed` (fails `JSON.parse`,
  which also covers whitespace-only lines), or a parsed event.
-/

/-- Model of a JS date string as observed through `new Date(s).getTime()`
and truthiness: `absent` = undefined/empty string, `invalid` = parses to
`NaN`, `valid ms` = parses to `ms`. -/
inductive TStr where
  | absent
  | invalid
  | valid (ms : Int)
deriving DecidableEq, BEq

/-- `new Date(s).getTime()`; `none` stands for `NaN`. -/
def TStr.getTime : TStr → Option Int
  | .valid ms => some ms
  | _ => none

/-- JS truthiness of the underlying string (`""` and undefined are falsy). -/
def TStr.truthy : TStr → Bool
  | .absent => false
  | _ => true

/-- `SessionStatus` from `sessions.ts`. -/
inductive SessionStatus where
  | running
  | completed
  | error
deriving DecidableEq, BEq

/-- `SessionSource` from `sessions.ts` / `search.ts` ("cli" | "vscode" |
"claude-code"). -/
inductive SessionSource where
  | cli
  | vscode
  | claudeCode
deriving DecidableEq, BEq

/-- JS truthiness of an optional string: `undefined` and `""` are falsy. -/
def strTruthy : Option String → Bool
  | some s => s ≠ ""
  | none => false

/-- `ws.x || y` on optional strings: the value if truthy, else the default. -/
def strOr (v : Option String) (dflt : String) : String :=
  match v with
  | some s => if s = "" then dflt else s
  | none => dflt

/-- `SessionMeta` from `sessions.ts`.  `createdAt`/`updatedAt` are date
strings, modelled as `TStr`. -/
structure SessionMeta where
  id : String
  cwd : String
  gitRoot : Option String := none
  branch : Option String := none
  createdAt : TStr
  updatedAt : TStr
  summaryCount : Option Int := none
  status : SessionStatus
  source : SessionSource
  title : Option String := none
deriving DecidableEq

/-- The open `data` map of a `SessionEvent`, restricted to the fields the
embedded code reads or writes; absent keys are `none`.  `input` abstracts
an arbitrary JSON payload that is carried through but never inspected. -/
structure EventData where
  content : Option String := none
  model : Option String := none
  tool : Option String := none
  toolName : Option String := none
  input : Option String := none
  success : Option Bool := none
  copilotVersion : Option String := none
  reason : Option String := none
deriving DecidableEq

/-- `SessionEvent` from `sessions.ts`.  `type` and `id` are `Option`
because events parsed from JSONL lines may lack these keys; an `id` of
`none` also stands for a freshly generated `randomUUID()` (the code never
inspects generated ids). -/
structure SessionEventM where
  type : Option String := none
  id : Option String := none
  timestamp : TStr := .absent
  data : EventData := {}
deriving DecidableEq

/-- `SessionDetail` from `sessions.ts`.  `eventCounts` is the JS object
as an insertion-ordered association list keyed by event type. -/
structure SessionDetail extends SessionMeta where
  events : List SessionEventM
  planContent : Option String := none
  hasSnapshots : Bool := false
  copilotVersion : Option String := none
  eventCounts : List (Option String × Nat) := []
  duration : Int
deriving DecidableEq

/-- `eventCounts[e.type] = (eventCounts[e.type] || 0) + 1`, preserving JS
object insertion order. -/
def bumpCount : List (Option String × Nat) → Option String → List (Option String × Nat)
  | [], k => [(k, 1)]
  | (k', n) :: rest, k =>
    if k' = k then (k', n + 1) :: rest else (k', n) :: bumpCount rest k

/-- The per-adapter `eventCounts` loop. -/
def countByType (events : List SessionEventM) : List (Option String × Nat) :=
  events.foldl (fun acc e => bumpCount acc e.type) []

/-! ## Gap-capped duration (spec §4.1)

Each adapter repeats the same inline computation: map events to
`new Date(e.timestamp).getTime()`, filter `t > 0`, sort ascending, then
sum consecutive deltas each capped at `MAX_GAP = 300_000` ms.  The three
copies are embedded separately, one per source file, so that their
equivalence is a theorem rather than an artefact of sharing. -/

/-- Ascending sort, modelling `timestamps.sort((a, b) => a - b)`. -/
def sortAsc (l : List Int) : List Int :=
  l.insertionSort (· ≤ ·)

/-- The capped-delta summation loop of `getSession` (`sessions.ts`,
lines 233–236). -/
def gapLoopCli : List Int → Int
  | a :: b :: rest => min (b - a) 300000 + gapLoopCli (b :: rest)
  | _ => 0

/-- The capped-delta summation loop of `getClaudeCodeSession`
(`claude-code-sessions.ts`, lines 284–289). -/
def gapLoopClaudeCode : List Int → Int
  | a :: b :: rest => min (b - a) 300000 + gapLoopClaudeCode (b :: rest)
  | _ => 0

/-- The capped-delta summation loop of `getVSCodeSession`
(`vscode-sessions.ts`, lines 271–276). -/
def gapLoopVSCode : List Int → Int
  | a :: b :: rest => min (b - a) 300000 + gapLoopVSCode (b :: rest)
  | _ => 0

/-- `estimateDuration` as named by the spec (§4.1): the computation of
`sessions.ts` lines 231–237 applied to an already-extracted timestamp
list — sort ascending, then the capped sum, returning 0 for fewer than
two timestamps. -/
def estimateDuration (ts : List Int) : Int :=
  let sorted := sortAsc ts
  if 2 ≤ sorted.length then gapLoopCli sorted else 0

/-- `.map(e => new Date(e.timestamp).getTime()).filter(t => t > 0)`. -/
def positiveTimes (ts : List TStr) : List Int :=
  ts.filterMap fun t =>
    match t.getTime with
    | some ms => if 0 < ms then some ms else none
    | none => none

/-- The full duration pipeline of `getSession` (`sessions.ts` 227–237):
map to epoch ms, filter positive, sort, capped sum. -/
def durationCliDetail (ts : List TStr) : Int :=
  let timestamps := sortAsc (positiveTimes ts)
  if 2 ≤ timestamps.length then gapLoopCli timestamps else 0

/-- The full duration pipeline of `getClaudeCodeSession`
(`claude-code-sessions.ts` 279–289). -/
def durationClaudeCodeDetail (ts : List TStr) : Int :=
  let timestamps := sortAsc (positiveTimes ts)
  if 2 ≤ timestamps.length then gapLoopClaudeCode timestamps else 0

/-- The full duration pipeline of `getVSCodeSession`
(`vscode-sessions.ts` 266–276). -/
def durationVSCodeDetail (ts : List TStr) : Int :=
  let timestamps := sortAsc (positiveTimes ts)
  if 2 ≤ timestamps.length then gapLoopVSCode timestamps else 0

/-- The `timing` object of a VS Code session-index entry. -/
structure VTiming where
  startTime : Option Int := none
  endTime : Option Int := none
deriving DecidableEq

/-- The duration computed by `getVSCodeAnalytics` (`vscode-sessions.ts`
lines 368–371): `endTime - startTime` when both are truthy (non-zero),
otherwise 0.  This is *not* the gap-capped summation. -/
def vscodeAnalyticsDuration (timing : Option VTiming) : Int :=
  match timing with
  | some t =>
    match t.startTime, t.endTime with
    | some s, some e => if s ≠ 0 ∧ e ≠ 0 then e - s else 0
    | _, _ => 0
  | none => 0

/-! ### Lemmas about the capped-gap sum -/

/-- First delta of the capped sum, split off for compositional reasoning. -/
def headDelta (a : Int) : List Int → Int
  | [] => 0
  | b :: _ => min (b - a) 300000

theorem gapLoopCli_cons (a : Int) (l : List Int) :
    gapLoopCli (a :: l) = headDelta a l + gapLoopCli l := by
  cases l with
  | nil => simp [gapLoopCli, headDelta]
  | cons b r => simp [gapLoopCli, headDelta]

theorem gapLoopCli_eq_claudeCode (l : List Int) :
    gapLoopCli l = gapLoopClaudeCode l := by
  induction l with
  | nil => rfl
  | cons a l ih =>
    cases l with
    | nil => rfl
    | cons b r =>
      have ihr : gapLoopCli (b :: r) = gapLoopClaudeCode (b :: r) := ih
      simp [gapLoopCli, gapLoopClaudeCode, ihr]

theorem gapLoopClaudeCode_eq_vscode (l : List Int) :
    gapLoopClaudeCode l = gapLoopVSCode l := by
  induction l with
  | nil => rfl
  | cons a l ih =>
    cases l with
    | nil => rfl
    | cons b r =>
      have ihr : gapLoopClaudeCode (b :: r) = gapLoopVSCode (b :: r) := ih
      simp [gapLoopClaudeCode, gapLoopVSCode, ihr]

/-- Sorting is a function of the multiset of inputs. -/
theorem sortAsc_eq_of_perm {l l' : List Int} (h : l.Perm l') :
    sortAsc l = sortAsc l' :=
  List.eq_of_perm_of_sorted
    ((List.perm_insertionSort _ l).trans (h.trans (List.perm_insertionSort _ l').symm))
    (List.sorted_insertionSort _ l) (List.sorted_insertionSort _ l')

theorem estimateDuration_eq_gapLoop (l : List Int) :
    estimateDuration l = gapLoopCli (sortAsc l) := by
  unfold estimateDuration
  by_cases h : 2 ≤ (sortAsc l).length
  · simp [h]
  · have : sortAsc l = [] ∨ ∃ a, sortAsc l = [a] := by
      match hs : sortAsc l with
      | [] => exact Or.inl rfl
      | [a] => exact Or.inr ⟨a, rfl⟩
      | a :: b :: r => rw [hs] at h; simp at h
    rcases this with h0 | ⟨a, h1⟩
    · simp [h0, gapLoopCli]
    · simp [h1, gapLoopCli]

/-- Inserting an element that is already present into a sorted list does
not change the capped-gap sum: the duplicate lands next to its copy and
contributes a zero-length gap. -/
theorem gapLoopCli_orderedInsert (x : Int) :
    ∀ (s : List Int), s.Sorted (· ≤ ·) → x ∈ s →
      gapLoopCli (s.orderedInsert (· ≤ ·) x) = gapLoopCli s := by
  intro s
  induction s with
  | nil => intro _ hx; cases hx
  | cons b t ih =>
    intro hs hx
    rw [List.sorted_cons] at hs
    by_cases hxb : x ≤ b
    · -- x goes in front; x = b by antisymmetry, giving a zero gap
      have hbx : b ≤ x := by
        rcases List.mem_cons.mp hx with h | h
        · omega
        · exact hs.1 x h
      have hxb' : x = b := le_antisymm hxb hbx
      subst hxb'
      simp only [List.orderedInsert, if_pos (le_refl x)]
      rw [gapLoopCli_cons x (x :: t)]
      simp only [headDelta]
      omega
    · -- x is inserted into the tail, whose head is unchanged
      have hxt : x ∈ t := by
        rcases List.mem_cons.mp hx with h | h
        · omega
        · exact h
      simp only [List.orderedInsert, if_neg hxb]
      rw [gapLoopCli_cons b (t.orderedInsert (· ≤ ·) x),
          gapLoopCli_cons b t, ih hs.2 hxt]
      have hhead : headDelta b (t.orderedInsert (· ≤ ·) x) = headDelta b t := by
        cases t with
        | nil => cases hxt
        | cons c t' =>
          by_cases hxc : x ≤ c
          · have hcx : c ≤ x := by
              rcases List.mem_cons.mp hxt with h | h
              · omega
              · exact ((List.sorted_cons.mp hs.2).1) x h
            have : x = c := le_antisymm hxc hcx
            simp [List.orderedInsert, if_pos hxc, headDelta, this]
          · simp [List.orderedInsert, if_neg hxc, headDelta]
      rw [hhead]

/-! ## Claims about the duration estimator (C1–C3) -/

/-- C1: the gap-capped duration computation, applied to the timestamp
list `[0, 5000, 10000, 310000, 315000]` (ms), returns `315000`:
consecutive deltas are summed with each delta clamped to 300000 ms, so
5000 + 5000 + 300000 (capped) + 5000 = 315000. -/
theorem estimateDuration_example :
    estimateDuration [0, 5000, 10000, 310000, 315000] = 315000 := by
  decide

/-- C2: `estimateDuration` is invariant under permutation of its input
(it sorts internally), and inserting a duplicate of an element already
present anywhere in the list leaves the result unchanged (the duplicate
contributes a zero-length gap). -/
theorem estimateDuration_perm_dup_invariant
    (l l' l₁ l₂ : List Int) (x : Int) :
    (l.Perm l' → estimateDuration l = estimateDuration l')
    ∧ (x ∈ l₁ ++ l₂ →
        estimateDuration (l₁ ++ x :: l₂) = estimateDuration (l₁ ++ l₂)) := by
  constructor
  · intro h
    unfold estimateDuration
    rw [sortAsc_eq_of_perm h]
  · intro hx
    rw [estimateDuration_eq_gapLoop, estimateDuration_eq_gapLoop,
        sortAsc_eq_of_perm (@List.perm_middle _ x l₁ l₂)]
    have hsort : sortAsc (x :: (l₁ ++ l₂)) =
        (sortAsc (l₁ ++ l₂)).orderedInsert (· ≤ ·) x := rfl
    rw [hsort]
    exact gapLoopCli_orderedInsert x (sortAsc (l₁ ++ l₂))
      (List.sorted_insertionSort _ _)
      (((List.perm_insertionSort _ (l₁ ++ l₂))).mem_iff.mpr hx)

/-- C2 witness: the theorem instantiated on the concrete lists `[1, 2]`,
its permutation `[2, 1]`, and a duplicate insertion `[1, 1, 2]`. -/
theorem estimateDuration_perm_dup_invariant_witness :
    estimateDuration [1, 2] = estimateDuration [2, 1]
    ∧ estimateDuration [1, 1, 2] = estimateDuration [1, 2] :=
  ⟨(estimateDuration_perm_dup_invariant [1, 2] [2, 1] [1] [2] 1).1 (by decide),
   (estimateDuration_perm_dup_invariant [1, 2] [2, 1] [1] [2] 1).2 (by decide)⟩

/-- C3 (amended): the three *detail* duration computations — CLI
(`getSession`), Claude Code (`getClaudeCodeSession`) and VS Code
(`getVSCodeSession`) — agree on every timestamp list: each is the same
filter/sort/capped-sum pipeline.  (The VS Code *analytics* duration is
not one of these; see the counterexample.) -/
theorem adapter_detail_durations_agree (ts : List TStr) :
    durationCliDetail ts = durationClaudeCodeDetail ts
    ∧ durationClaudeCodeDetail ts = durationVSCodeDetail ts := by
  unfold durationCliDetail durationClaudeCodeDetail durationVSCodeDetail
  refine ⟨?_, ?_⟩ <;>
    simp only [gapLoopCli_eq_claudeCode, gapLoopClaudeCode_eq_vscode]

/-- C3 counterexample: on a session whose two events carry epoch
timestamps 1000 and 700000 ms (index timing start 1000, end 700000), the
shared gap-capped detail computation yields 300000, while the VS Code
analytics duration (`endTime - startTime`) yields 699000 — the adapters'
duration values are not all identical. -/
theorem vscode_analytics_duration_diverges :
    durationVSCodeDetail [TStr.valid 1000, TStr.valid 700000] = 300000
    ∧ vscodeAnalyticsDuration (some ⟨some 1000, some 700000⟩) = 699000
    ∧ (300000 : Int) ≠ 699000 := by
  decide

/-! ## The Claude Code adapter (`claude-code-sessions.ts`)

The filesystem under `~/.claude/projects` is modelled as a list of
project directories, each holding `.jsonl` transcript files.  A file
carries its `stat` observables (`size`, `mtime`) and its parsed lines. -/

/-- A content block inside a Claude Code message (`ContentBlock`).
`input` abstracts an arbitrary JSON value that is carried through
unchanged. -/
structure CCBlock where
  type : Option String := none
  text : Option String := none
  id : Option String := none
  name : Option String := none
  input : Option String := none
deriving DecidableEq

/-- `message.content`: either a plain string or a list of blocks. -/
inductive CCContent where
  | str (s : String)
  | blocks (bs : List CCBlock)
deriving DecidableEq

/-- The `message` object of a Claude Code JSONL entry. -/
structure CCMessage where
  role : Option String := none
  content : Option CCContent := none
  model : Option String := none
deriving DecidableEq

/-- A parsed Claude Code JSONL entry (`ClaudeCodeEvent`). -/
structure CCEvent where
  type : Option String := none
  uuid : Option String := none
  cwd : Option String := none
  gitBranch : Option String := none
  slug : Option String := none
  timestamp : TStr := .absent
  isSidechain : Option Bool := none
  message : Option CCMessage := none
deriving DecidableEq

/-- One line of a JSONL file: empty, unparseable (which also covers
whitespace-only lines), or a parsed event. -/
inductive CCLine where
  | blank
  | malformed
  | event (e : CCEvent)
deriving DecidableEq

/-- A transcript file with its `stat` observables. -/
structure CCFile where
  name : String
  size : Int
  mtime : Int
  lines : List CCLine
deriving DecidableEq

/-- A project subdirectory of `~/.claude/projects`. -/
structure CCProjectDir where
  name : String
  files : List CCFile
deriving DecidableEq

/-- The Claude Code storage root. -/
structure CCFs where
  projectsDirExists : Bool := true
  dirs : List CCProjectDir := []
deriving DecidableEq

/-- `extractTextContent`: join the `text` of all truthy text blocks. -/
def extractTextContent (content : Option CCContent) : String :=
  match content with
  | none => ""
  | some (.str s) => s
  | some (.blocks bs) =>
    String.join ((bs.filter fun b =>
      b.type = some "text" ∧ strTruthy b.text).map fun b => b.text.getD "")

/-- `extractToolUseBlocks`: the `tool_use` blocks of an array content. -/
def extractToolUseBlocks (content : Option CCContent) : List CCBlock :=
  match content with
  | some (.blocks bs) => bs.filter fun b => b.type = some "tool_use"
  | _ => []

/-- `deriveStatus` (claude-code): completed when the last timestamp is
missing or unparseable (`NaN < 300000` is false); otherwise running iff
its age relative to `now` is under five minutes. -/
def deriveStatus (now : Int) (lastTimestamp : TStr) : SessionStatus :=
  match lastTimestamp with
  | .absent => .completed
  | .invalid => .completed
  | .valid ms => if now - ms < 300000 then .running else .completed

/-- `readFirstLines`: split on newlines, `filter(Boolean)` (drops empty
lines only), take the first `maxLines`. -/
def readFirstLines (f : CCFile) (maxLines : Nat) : List CCLine :=
  (f.lines.filter fun l => l ≠ CCLine.blank).take maxLines

/-- The events of the parseable lines, in order. -/
def parsedEvents (lines : List CCLine) : List CCEvent :=
  lines.filterMap fun l =>
    match l with
    | .event e => some e
    | _ => none

/-- `readAllLines`: empty for files over the 200 MB cap, otherwise every
line that parses (blank and malformed lines are skipped). -/
def readAllLines (f : CCFile) : List CCEvent :=
  if 200 * 1024 * 1024 < f.size then []
  else parsedEvents f.lines

/-- `name.endsWith(".jsonl")`, computed on the character list so that it
evaluates by kernel reduction. -/
def hasJsonlSuffix (name : String) : Bool :=
  ".jsonl".data.isSuffixOf name.data

/-- `file.name.replace(/\.jsonl$/, "")`. -/
def sessionIdOfName (name : String) : String :=
  if hasJsonlSuffix name then String.mk (name.data.take (name.data.length - 6))
  else name

/-- Accumulator of the metadata scan in `listClaudeCodeSessions`. -/
structure CCScanAcc where
  cwd : String := ""
  gitBranch : String := ""
  slug : String := ""
  firstTimestamp : TStr := .absent
  lastTimestamp : TStr := .absent
  hasUserEvent : Bool := false
deriving DecidableEq

/-- One iteration of the metadata scan loop.  The source's sequential
`if` statements each read only the field they write, so they are
rendered as one simultaneous record update. -/
def ccScanStep (acc : CCScanAcc) (line : CCLine) : CCScanAcc :=
  match line with
  | .event e =>
    if strTruthy e.type then
      { cwd := if acc.cwd = "" ∧ strTruthy e.cwd then e.cwd.getD "" else acc.cwd,
        gitBranch :=
          if acc.gitBranch = "" ∧ strTruthy e.gitBranch then e.gitBranch.getD ""
          else acc.gitBranch,
        slug := if acc.slug = "" ∧ strTruthy e.slug then e.slug.getD "" else acc.slug,
        firstTimestamp :=
          if e.timestamp.truthy ∧ ¬ acc.firstTimestamp.truthy then e.timestamp
          else acc.firstTimestamp,
        lastTimestamp := if e.timestamp.truthy then e.timestamp else acc.lastTimestamp,
        hasUserEvent :=
          acc.hasUserEvent || (e.type = some "user" ∧ e.isSidechain ≠ some true) }
    else acc
  | _ => acc

/-- The metadata scan of `listClaudeCodeSessions` over the first 5000
non-empty lines. -/
def ccScanOf (f : CCFile) : CCScanAcc :=
  (readFirstLines f 5000).foldl ccScanStep {}

/-- The per-file body of `listClaudeCodeSessions`: scan the first 5000
non-empty lines for metadata, and drop the file when it has no
non-sidechain `user` event. -/
def processCCFile (now : Int) (f : CCFile) : Option SessionMeta :=
  if (readFirstLines f 100).isEmpty then none
  else if ¬ (ccScanOf f).hasUserEvent then none
  else some {
    id := sessionIdOfName f.name,
    cwd := (ccScanOf f).cwd,
    branch := if (ccScanOf f).gitBranch = "" then none else some (ccScanOf f).gitBranch,
    createdAt := (ccScanOf f).firstTimestamp,
    updatedAt := (ccScanOf f).lastTimestamp,
    status := deriveStatus now (ccScanOf f).lastTimestamp,
    source := .claudeCode,
    title := if (ccScanOf f).slug = "" then none else some (ccScanOf f).slug }

/-- `listClaudeCodeSessions`: one metadata row per top-level `.jsonl`
file that passes the user-event gate. -/
def listClaudeCodeSessions (now : Int) (fs : CCFs) : List SessionMeta :=
  if ¬ fs.projectsDirExists then []
  else fs.dirs.flatMap fun d =>
    (d.files.filter fun f => hasJsonlSuffix f.name).filterMap (processCCFile now)

/-- `findSessionFile`: the first project subdirectory containing
`{sessionId}.jsonl`. -/
def findSessionFile (fs : CCFs) (sessionId : String) : Option CCFile :=
  if ¬ fs.projectsDirExists then none
  else fs.dirs.findSome? fun d =>
    d.files.find? fun f => f.name = sessionId ++ ".jsonl"

/-- Accumulator of the metadata scan in `getClaudeCodeSession` (which,
unlike the listing scan, has no `event.type` guard). -/
structure CCMetaAcc where
  cwd : String := ""
  gitBranch : String := ""
  slug : String := ""
  firstTimestamp : TStr := .absent
  lastTimestamp : TStr := .absent
deriving DecidableEq

/-- One iteration of `getClaudeCodeSession`'s metadata loop. -/
def ccMetaStep (acc : CCMetaAcc) (e : CCEvent) : CCMetaAcc :=
  { cwd := if acc.cwd = "" ∧ strTruthy e.cwd then e.cwd.getD "" else acc.cwd,
    gitBranch :=
      if acc.gitBranch = "" ∧ strTruthy e.gitBranch then e.gitBranch.getD ""
      else acc.gitBranch,
    slug := if acc.slug = "" ∧ strTruthy e.slug then e.slug.getD "" else acc.slug,
    firstTimestamp :=
      if e.timestamp.truthy ∧ ¬ acc.firstTimestamp.truthy then e.timestamp
      else acc.firstTimestamp,
    lastTimestamp := if e.timestamp.truthy then e.timestamp else acc.lastTimestamp }

/-- Conversion of one raw entry to canonical `SessionEvent`s
(`getClaudeCodeSession`, lines 232–276).  A generated `randomUUID()` is
modelled as `id := none` (the code never inspects generated ids). -/
def ccEventToSessionEvents (e : CCEvent) : List SessionEventM :=
  if e.isSidechain = some true then []
  else if ¬ strTruthy e.type then []
  else
    let ts := e.timestamp
    let idv : Option String := if strTruthy e.uuid then some (e.uuid.getD "") else none
    if e.type = some "user" then
      let content := extractTextContent (e.message.bind (·.content))
      if content ≠ "" then
        [{ type := some "user.message", id := idv, timestamp := ts,
           data := { content := some content } }]
      else []
    else if e.type = some "assistant" then
      let msgContent := e.message.bind (·.content)
      let toolEvents := (extractToolUseBlocks msgContent).map fun block =>
        { type := some "tool.execution_start",
          id := if strTruthy block.id then some (block.id.getD "") else none,
          timestamp := ts,
          data := { tool := some (strOr block.name "unknown"), input := block.input } }
      let textContent := extractTextContent msgContent
      let textEvents : List SessionEventM :=
        if textContent ≠ "" then
          [{ type := some "assistant.message", id := idv, timestamp := ts,
             data := { content := some textContent, model := e.message.bind (·.model) } }]
        else []
      toolEvents ++ textEvents
    else []

/-- `getClaudeCodeSession`: full detail load of one transcript. -/
def getClaudeCodeSession (now : Int) (fs : CCFs) (sessionId : String) :
    Option SessionDetail :=
  match findSessionFile fs sessionId with
  | none => none
  | some f =>
    let rawEvents := readAllLines f
    if rawEvents.isEmpty then none
    else
      let acc := rawEvents.foldl ccMetaStep {}
      let events := rawEvents.flatMap ccEventToSessionEvents
      some {
        id := sessionId,
        cwd := acc.cwd,
        branch := if acc.gitBranch = "" then none else some acc.gitBranch,
        createdAt := acc.firstTimestamp,
        updatedAt := acc.lastTimestamp,
        events := events,
        planContent := none,
        hasSnapshots := false,
        copilotVersion := none,
        eventCounts := countByType events,
        duration := durationClaudeCodeDetail (events.map (·.timestamp)),
        status := deriveStatus now acc.lastTimestamp,
        source := .claudeCode,
        title := if acc.slug = "" then none else some acc.slug }

/-! ### Lemmas about the Claude Code listing -/

/-- A line that counts for the `hasUserEvent` gate: a parsed `user`
event not flagged as sidechain. -/
def isQualifyingUserLine : CCLine → Bool
  | .event e => e.type = some "user" ∧ e.isSidechain ≠ some true
  | _ => false

theorem ccScanStep_hasUser (acc : CCScanAcc) (l : CCLine) :
    (ccScanStep acc l).hasUserEvent
      = (acc.hasUserEvent || isQualifyingUserLine l) := by
  cases l with
  | blank => simp [ccScanStep, isQualifyingUserLine]
  | malformed => simp [ccScanStep, isQualifyingUserLine]
  | event e =>
    by_cases h : strTruthy e.type = true
    · simp [ccScanStep, isQualifyingUserLine, h]
    · have hne : ¬ e.type = some "user" := by
        intro hty
        rw [hty] at h
        simp [strTruthy] at h
      simp [ccScanStep, isQualifyingUserLine, h, hne]

theorem ccScan_hasUser (lines : List CCLine) :
    ∀ acc : CCScanAcc,
      (lines.foldl ccScanStep acc).hasUserEvent
        = (acc.hasUserEvent || lines.any isQualifyingUserLine) := by
  induction lines with
  | nil => intro acc; simp
  | cons l rest ih =>
    intro acc
    simp only [List.foldl_cons, List.any_cons]
    rw [ih, ccScanStep_hasUser, Bool.or_assoc]

theorem processCCFile_some {now : Int} {f : CCFile} {m : SessionMeta}
    (h : processCCFile now f = some m) :
    m.id = sessionIdOfName f.name
    ∧ (readFirstLines f 5000).any isQualifyingUserLine = true
    ∧ m.status = deriveStatus now (ccScanOf f).lastTimestamp := by
  unfold processCCFile at h
  by_cases h1 : (readFirstLines f 100).isEmpty
  · rw [if_pos h1] at h; cases h
  · rw [if_neg h1] at h
    by_cases h2 : (ccScanOf f).hasUserEvent
    · rw [if_neg (not_not_intro h2)] at h
      have hany : (readFirstLines f 5000).any isQualifyingUserLine = true := by
        unfold ccScanOf at h2
        rw [ccScan_hasUser (readFirstLines f 5000) ({} : CCScanAcc)] at h2
        simpa using h2
      cases h
      exact ⟨rfl, hany, rfl⟩
    · rw [if_pos h2] at h; cases h

theorem mem_listClaudeCodeSessions {now : Int} {fs : CCFs} {m : SessionMeta}
    (hm : m ∈ listClaudeCodeSessions now fs) :
    ∃ d ∈ fs.dirs, ∃ f ∈ d.files,
      hasJsonlSuffix f.name = true ∧ processCCFile now f = some m := by
  unfold listClaudeCodeSessions at hm
  by_cases hex : fs.projectsDirExists
  · simp only [hex, not_true, if_false, List.mem_flatMap, List.mem_filterMap,
      List.mem_filter] at hm
    obtain ⟨d, hd, f, ⟨hf, hsuf⟩, hproc⟩ := hm
    exact ⟨d, hd, f, hf, hsuf, hproc⟩
  · simp [hex] at hm

theorem deriveStatus_ne_error (now : Int) (ts : TStr) :
    deriveStatus now ts ≠ SessionStatus.error := by
  cases ts with
  | absent => simp [deriveStatus]
  | invalid => simp [deriveStatus]
  | valid ms =>
    simp only [deriveStatus]
    split <;> simp

/-! ### Claims C4, C6, C7 -/

/-- C4 (amended): for every session id whose transcript file exceeds the
200 MB cap, `getClaudeCodeSession` returns `null` without parsing
(`readAllLines` yields no events); the *listing* operation applies no
such size check (see the counterexample). -/
theorem getClaudeCodeSession_oversized_none (now : Int) (fs : CCFs) (sid : String)
    (h : ∀ f, findSessionFile fs sid = some f → 200 * 1024 * 1024 < f.size) :
    getClaudeCodeSession now fs sid = none := by
  unfold getClaudeCodeSession
  match hf : findSessionFile fs sid with
  | none => rfl
  | some f =>
    have hsize := h f hf
    have hempty : readAllLines f = [] := by
      unfold readAllLines
      rw [if_pos hsize]
    simp [hempty]

/-- An oversized transcript (one byte over the 200 MB cap) holding one
qualifying user event. -/
def ccBigFile : CCFile :=
  { name := "big-session.jsonl", size := 200 * 1024 * 1024 + 1, mtime := 0,
    lines := [CCLine.event { type := some "user", timestamp := TStr.valid 5000 }] }

/-- A projects dir holding only the oversized transcript. -/
def ccBigFs : CCFs := { dirs := [⟨"-home-user-proj", [ccBigFile]⟩] }

/-- C4 witness: the amended theorem applied to the oversized transcript. -/
theorem getClaudeCodeSession_oversized_none_witness :
    getClaudeCodeSession 0 ccBigFs "big-session" = none :=
  getClaudeCodeSession_oversized_none 0 ccBigFs "big-session"
    (by
      intro f hf
      have heval : findSessionFile ccBigFs "big-session" = some ccBigFile := by decide
      rw [heval] at hf
      cases hf
      decide)

/-- C4 counterexample: the same oversized transcript is *not* treated as
absent by the listing — `listClaudeCodeSessions` still returns it
(`readFirstLines` has no size cap), contradicting "it does not appear in
the metadata list". -/
theorem oversized_session_still_listed :
    200 * 1024 * 1024 < ccBigFile.size
    ∧ (listClaudeCodeSessions 0 ccBigFs).map (fun m => m.id) = ["big-session"]
    ∧ getClaudeCodeSession 0 ccBigFs "big-session" = none := by
  decide

/-- C6 (amended): the Claude Code status classifier yields `running`
exactly when the last event timestamp seen in the transcript parses to
`ms` with `now - ms < 300000` (strictly), and `completed` otherwise; it
never yields `error`, and accordingly no listed Claude Code session
carries the `error` status. -/
theorem deriveStatus_running_iff (now : Int) (ts : TStr) (fs : CCFs) :
    (deriveStatus now ts = SessionStatus.running ↔
      ∃ ms, ts = TStr.valid ms ∧ now - ms < 300000)
    ∧ deriveStatus now ts ≠ SessionStatus.error
    ∧ (listClaudeCodeSessions now fs).all
        (fun m => m.status ≠ SessionStatus.error) = true := by
  refine ⟨?_, deriveStatus_ne_error now ts, ?_⟩
  · cases ts with
    | absent => simp [deriveStatus]
    | invalid => simp [deriveStatus]
    | valid ms =>
      simp only [deriveStatus]
      split <;> rename_i hlt
      · simp only [true_iff]
        exact ⟨ms, rfl, hlt⟩
      · constructor
        · intro h; cases h
        · rintro ⟨ms', hms', hlt'⟩
          cases hms'
          exact absurd hlt' hlt
  · rw [List.all_eq_true]
    intro m hm
    obtain ⟨d, _, f, _, _, hproc⟩ := mem_listClaudeCodeSessions hm
    obtain ⟨_, _, hstatus⟩ := processCCFile_some hproc
    simp only [decide_eq_true_eq, hstatus]
    exact deriveStatus_ne_error now _

/-- A reference time for the stale-transcript counterexample. -/
def ccNow : Int := 1000000000

/-- A transcript whose file mtime equals `ccNow` (just modified) but
whose last event timestamp is one hour old. -/
def ccStaleFile : CCFile :=
  { name := "stale.jsonl", size := 100, mtime := 1000000000,
    lines := [CCLine.event
      { type := some "user", timestamp := TStr.valid (1000000000 - 3600000) }] }

/-- A projects dir holding only the stale transcript. -/
def ccStaleFs : CCFs := { dirs := [⟨"-home-user-stale", [ccStaleFile]⟩] }

/-- C6 counterexample: a transcript modified right now (mtime within 5
minutes of `now`) is classified `completed`, not `running` — the
classifier reads the last *event timestamp*, never the file's
last-modified time. -/
theorem claudeCode_status_ignores_mtime :
    ccNow - ccStaleFile.mtime < 300000
    ∧ (listClaudeCodeSessions ccNow ccStaleFs).map (fun m => m.status)
        = [SessionStatus.completed]
    ∧ SessionStatus.completed ≠ SessionStatus.running := by
  decide

/-- C7: a transcript with zero qualifying user events — `user`-typed,
non-sidechain — is excluded from `listClaudeCodeSessions`; sidechain
user entries do not count toward the existence gate. -/
theorem listCC_excludes_sessions_without_user_events
    (now : Int) (fs : CCFs) (sid : String)
    (h : ∀ d ∈ fs.dirs, ∀ f ∈ d.files, sessionIdOfName f.name = sid →
        (readFirstLines f 5000).any isQualifyingUserLine = false) :
    (listClaudeCodeSessions now fs).all (fun m => m.id ≠ sid) = true := by
  rw [List.all_eq_true]
  intro m hm
  simp only [decide_eq_true_eq]
  obtain ⟨d, hd, f, hf, _, hproc⟩ := mem_listClaudeCodeSessions hm
  obtain ⟨hid, hany, _⟩ := processCCFile_some hproc
  intro heq
  have hsid : sessionIdOfName f.name = sid := by rw [← hid]; exact heq
  rw [h d hd f hf hsid] at hany
  cases hany

/-- A transcript whose only user entry is sidechain-flagged. -/
def ccSideFile : CCFile :=
  { name := "side.jsonl", size := 50, mtime := 0,
    lines := [CCLine.event
      { type := some "user", isSidechain := some true,
        timestamp := TStr.valid 1000 }] }

/-- A projects dir holding only the sidechain-flagged transcript. -/
def ccSideFs : CCFs := { dirs := [⟨"-home-user-side", [ccSideFile]⟩] }

/-- C7 witness: the theorem applied to the transcript whose only user
entry is sidechain-flagged. -/
theorem listCC_excludes_sessions_without_user_events_witness :
    (listClaudeCodeSessions 0 ccSideFs).all (fun m => m.id ≠ "side") = true :=
  listCC_excludes_sessions_without_user_events 0 ccSideFs "side" (by decide)

/-! ## The CLI adapter and session routing (`sessions.ts`)

The CLI storage root `~/.copilot/session-state` is a list of session
directories.  Each directory record holds the observables `detectStatus`
and `getSession` read: the parsed `workspace.yaml` (or its absence /
corruption), the `session.db` mtime when that file exists, the events
log with its mtime, full parsed lines, and the non-empty lines visible
in the final ≤2 KB tail read, plus `plan.md` and the snapshot-index
marker. -/

/-- Parsed `workspace.yaml` fields the code reads. -/
structure WsYaml where
  id : Option String := none
  cwd : Option String := none
  git_root : Option String := none
  branch : Option String := none
  created_at : TStr := .absent
  updated_at : TStr := .absent
  summary_count : Option Int := none
deriving DecidableEq

/-- `workspace.yaml`: missing, unparseable, or parsed. -/
inductive WsFile where
  | missing
  | corrupt
  | parsed (ws : WsYaml)
deriving DecidableEq

/-- One line of `events.jsonl` (parsed lines are raw `SessionEvent`s). -/
inductive CliLine where
  | blank
  | malformed
  | event (e : SessionEventM)
deriving DecidableEq

/-- The `events.jsonl` file.  `tail` is the observable of the 2 KB tail
read in `detectStatus`: the non-empty lines of the final bytes, after
`trimEnd().split("\n").filter(Boolean)` (a line cut at the 2 KB boundary
appears as `malformed`). -/
structure CliEvents where
  mtime : Int
  lines : List CliLine
  tail : List CliLine
deriving DecidableEq

/-- One session directory under `~/.copilot/session-state`. -/
structure CliSessionDir where
  name : String
  workspace : WsFile
  dbMtime : Option Int := none
  eventsFile : Option CliEvents := none
  planContent : Option String := none
  hasSnapshotsIndex : Bool := false
deriving DecidableEq

/-- The CLI storage root. -/
structure CliFs where
  rootExists : Bool := true
  dirs : List CliSessionDir := []
deriving DecidableEq

/-- `detectStatus` (`sessions.ts` 65–109): `session.db` freshness, then
an abort event in the last five tail lines, then events-log freshness. -/
def detectStatus (now : Int) (d : CliSessionDir) : SessionStatus :=
  if (match d.dbMtime with
      | some m => now - m < 600000
      | none => false : Bool) then .running
  else match d.eventsFile with
  | none => .completed
  | some ev =>
    match (ev.tail.drop (ev.tail.length - 5)).findSome? (fun l =>
      match l with
      | CliLine.event e =>
        if e.type = some "abort" then some e.data.reason else none
      | _ => none) with
    | some reason =>
      if reason = some "user initiated" then .completed else .error
    | none => if now - ev.mtime < 300000 then .running else .completed

/-- `listCliSessions`: one row per directory with a parseable
`workspace.yaml`; corrupted files are skipped. -/
def listCliSessions (now : Int) (fs : CliFs) : List SessionMeta :=
  if ¬ fs.rootExists then []
  else fs.dirs.filterMap fun d =>
    match d.workspace with
    | WsFile.parsed ws => some {
        id := strOr ws.id d.name,
        cwd := strOr ws.cwd "",
        gitRoot := ws.git_root,
        branch := ws.branch,
        createdAt := ws.created_at,
        updatedAt := ws.updated_at,
        summaryCount := ws.summary_count,
        status := detectStatus now d,
        source := SessionSource.cli }
    | _ => none

/-- The parsed events of `events.jsonl` (blank and malformed lines are
skipped, one bad line never aborts the file). -/
def cliEventsOf (ev : Option CliEvents) : List SessionEventM :=
  match ev with
  | none => []
  | some e => e.lines.filterMap fun l =>
      match l with
      | CliLine.event ev' => some ev'
      | _ => none

/-- `getSession` (`sessions.ts` 163–256).  The imported VS Code
membership test and loader are parameters, mirroring the module import
boundary; `isVSCodeSession(id)` true short-circuits to the VS Code
loader before any CLI path is consulted. -/
def getSession (now : Int)
    (isVSCodeSessionF : String → Bool)
    (getVSCodeSessionF : String → Option SessionDetail)
    (fs : CliFs) (sessionId : String) : Option SessionDetail :=
  if isVSCodeSessionF sessionId then getVSCodeSessionF sessionId
  else if ¬ fs.rootExists then none
  else match fs.dirs.find? (fun d => d.name = sessionId) with
  | none => none
  | some d =>
    match d.workspace with
    | WsFile.missing => none
    | WsFile.corrupt => none
    | WsFile.parsed ws =>
      let events := cliEventsOf d.eventsFile
      some {
        id := strOr ws.id sessionId,
        cwd := strOr ws.cwd "",
        gitRoot := ws.git_root,
        branch := ws.branch,
        createdAt := ws.created_at,
        updatedAt := ws.updated_at,
        summaryCount := ws.summary_count,
        events := events,
        planContent := d.planContent,
        hasSnapshots := d.hasSnapshotsIndex,
        copilotVersion :=
          (events.find? fun e => e.type = some "session.start").bind
            fun e => e.data.copilotVersion,
        eventCounts := countByType events,
        duration := durationCliDetail (events.map (·.timestamp)),
        status := detectStatus now d,
        source := SessionSource.cli }

/-! ## The TTL result cache (`cache.ts`) -/

/-- The module-level `Map` of `cache.ts`, as an insertion-ordered
association list of key, value and expiry. -/
abbrev CacheMap (α : Type) := List (String × α × Int)

/-- `cache.get(key)`. -/
def cacheGet {α : Type} (c : CacheMap α) (key : String) : Option (α × Int) :=
  match c.find? (fun e => e.1 = key) with
  | some (_, v, exp) => some (v, exp)
  | none => none

/-- `cache.set(key, { value, expiresAt })`: JS `Map.set` updates an
existing key in place, else appends. -/
def cacheSet {α : Type} (c : CacheMap α) (key : String) (v : α) (exp : Int) :
    CacheMap α :=
  if c.any (fun e => e.1 = key) then
    c.map fun e => if e.1 = key then (key, v, exp) else e
  else c ++ [(key, v, exp)]

/-- `cachedCall(key, ttlMs, fn)`: return the live cached value, else
compute, store with expiry `now + ttlMs`, and return.  The call's
`Date.now()` is the explicit `now`. -/
def cachedCall {α : Type} (now : Int) (c : CacheMap α) (key : String)
    (ttlMs : Int) (fn : Unit → α) : α × CacheMap α :=
  match cacheGet c key with
  | some (v, expiresAt) =>
    if now < expiresAt then (v, c)
    else
      let value := fn ()
      (value, cacheSet c key value (now + ttlMs))
  | none =>
    let value := fn ()
    (value, cacheSet c key value (now + ttlMs))

/-- The NaN-free key used to model the JS comparator
`(a, b) => new Date(b.createdAt).getTime() - new Date(a.createdAt).getTime()`;
for unparseable dates the JS comparator returns `NaN`, for which `sort`'s
ordering is unspecified — the model fixes those keys to 0. -/
def createdAtKey (t : TStr) : Int :=
  match t with
  | .valid ms => ms
  | _ => 0

/-- The merged-list sort of `listSessions` (stable, descending by
`createdAt`). -/
def sortByCreatedAtDesc (l : List SessionMeta) : List SessionMeta :=
  l.insertionSort fun a b => createdAtKey b.createdAt ≤ createdAtKey a.createdAt

/-- `listSessions` (`sessions.ts` 147–161): CLI listing plus the
imported VS Code listing (a parameter, mirroring the import boundary),
merged and sorted by creation time descending. -/
def listSessions (now : Int) (listVSCodeSessionsF : Unit → List SessionMeta)
    (fs : CliFs) : List SessionMeta :=
  sortByCreatedAtDesc (listCliSessions now fs ++ listVSCodeSessionsF ())

/-- Modelled from the spec: the HTTP routing layer (`server.ts`) is not
part of the analysed sources — spec §4.4/§6 specify that it serves
"list all sessions" through the result cache with a 30-second TTL, i.e.
`cachedCall("listSessions", 30_000, () => listSessions())`. -/
def listSessionsCached (now : Int) (c : CacheMap (List SessionMeta))
    (listVSCodeSessionsF : Unit → List SessionMeta) (fs : CliFs) :
    List SessionMeta × CacheMap (List SessionMeta) :=
  cachedCall now c "listSessions" 30000
    (fun _ => listSessions now listVSCodeSessionsF fs)

theorem cacheGet_set_fresh {α : Type} {c : CacheMap α} {key : String}
    (v : α) (exp : Int) (hfresh : cacheGet c key = none) :
    cacheGet (cacheSet c key v exp) key = some (v, exp) := by
  have hnone : c.find? (fun e => e.1 = key) = none := by
    unfold cacheGet at hfresh
    match hf : c.find? (fun e => e.1 = key) with
    | none => exact hf
    | some (k', v', e') => rw [hf] at hfresh; cases hfresh
  have hany : c.any (fun e => decide (e.1 = key)) = false := by
    rw [List.find?_eq_none] at hnone
    rw [List.any_eq_false]
    intro e he
    simpa using hnone e he
  unfold cacheSet cacheGet
  rw [if_neg (by simp [hany])]
  rw [List.find?_append, hnone]
  simp

/-! ### Claim C5 -/

/-- C5: after a `listSessions` request primes a fresh cache at `now₁`,
any second request strictly before `now₁ + 30000` returns the identical
stored list and leaves the cache untouched — for *any* second compute
environment (so the compute function is not invoked and the filesystem
is not re-scanned). -/
theorem listSessions_cached_within_ttl
    (c₀ : CacheMap (List SessionMeta)) (now₁ now₂ : Int)
    (lv₁ lv₂ : Unit → List SessionMeta) (fs₁ fs₂ : CliFs)
    (hfresh : cacheGet c₀ "listSessions" = none)
    (httl : now₂ < now₁ + 30000) :
    listSessionsCached now₂ (listSessionsCached now₁ c₀ lv₁ fs₁).2 lv₂ fs₂
      = ((listSessionsCached now₁ c₀ lv₁ fs₁).1,
         (listSessionsCached now₁ c₀ lv₁ fs₁).2) := by
  have hfirst : listSessionsCached now₁ c₀ lv₁ fs₁
      = (listSessions now₁ lv₁ fs₁,
         cacheSet c₀ "listSessions" (listSessions now₁ lv₁ fs₁) (now₁ + 30000)) := by
    unfold listSessionsCached cachedCall
    rw [hfresh]
  rw [hfirst]
  unfold listSessionsCached cachedCall
  rw [cacheGet_set_fresh _ _ hfresh]
  simp [httl]

/-- C5 witness: a fresh empty cache primed at `now = 0` and re-read at
`now = 10000` with a different (would-be) filesystem. -/
theorem listSessions_cached_within_ttl_witness :
    listSessionsCached 10000
        (listSessionsCached 0 [] (fun _ => []) { rootExists := false }).2
        (fun _ => []) { rootExists := true, dirs := [] }
      = ((listSessionsCached 0 [] (fun _ => []) { rootExists := false }).1,
         (listSessionsCached 0 [] (fun _ => []) { rootExists := false }).2) :=
  listSessions_cached_within_ttl [] 0 10000 (fun _ => []) (fun _ => [])
    { rootExists := false } { rootExists := true, dirs := [] } rfl (by decide)

/-! ### Claim C10 -/

/-- C10: `getSession` tries the VS Code membership test first: whenever
`isVSCodeSession(id)` holds — even for an id that also exists as a CLI
session directory — the result is the VS Code loader's, and the CLI
path is never consulted. -/
theorem getSession_prefers_vscode (now : Int)
    (isVS : String → Bool) (getVS : String → Option SessionDetail)
    (fs : CliFs) (sid : String)
    (hvs : isVS sid = true)
    (_hcli : fs.dirs.any (fun d => d.name = sid) = true) :
    getSession now isVS getVS fs sid = getVS sid := by
  unfold getSession
  rw [hvs]
  simp

/-- A VS Code detail result for the routing witness. -/
def vsSampleDetail : SessionDetail :=
  { id := "s1", cwd := "", createdAt := .absent, updatedAt := .absent,
    status := .completed, source := .vscode, events := [], duration := 0 }

/-- A CLI session directory with the colliding id `s1`. -/
def cliSampleDir : CliSessionDir :=
  { name := "s1", workspace := WsFile.parsed {} }

/-- C10 witness: an id present both in the VS Code index (membership
returns true) and as a CLI session directory resolves to the VS Code
detail. -/
theorem getSession_prefers_vscode_witness :
    getSession 0 (fun _ => true) (fun _ => some vsSampleDetail)
        { rootExists := true, dirs := [cliSampleDir] } "s1"
      = some vsSampleDetail :=
  getSession_prefers_vscode 0 (fun _ => true) (fun _ => some vsSampleDetail)
    { rootExists := true, dirs := [cliSampleDir] } "s1" rfl (by decide)

/-! ## The full-text search index (`search.ts`)

Strings are manipulated as `List Char` (one JS string position per
element).  JS number scores — sums of `count / wordCount`, `0.5` and
`0.2` — are modelled as exact fractions (`Frac`, compared by
cross-multiplication); the claims settled below do not depend on binary
floating-point rounding. -/

/-- An exact (unnormalized) fraction with positive denominator, the
model of a JS float relevance score. -/
structure Frac where
  num : Int
  den : Int
deriving DecidableEq

/-- Exact order on fractions (denominators are positive). -/
def Frac.le (a b : Frac) : Prop :=
  a.num * b.den ≤ b.num * a.den

instance (a b : Frac) : Decidable (Frac.le a b) :=
  inferInstanceAs (Decidable (_ ≤ _))

/-- Exact addition (no normalization). -/
def Frac.add (a b : Frac) : Frac :=
  ⟨a.num * b.den + b.num * a.den, a.den * b.den⟩

/-- A character of the lowercased text matched by `[a-z0-9]`. -/
def isAlnum (c : Char) : Bool :=
  (97 ≤ c.toNat ∧ c.toNat ≤ 122) ∨ (48 ≤ c.toNat ∧ c.toNat ≤ 57)

/-- `/\s/` on the characters the model uses (space, tab, LF, VT, FF, CR). -/
def isWsChar (c : Char) : Bool :=
  c = ' ' ∨ c = '\t' ∨ c = '\n' ∨ c = '\r' ∨ c.toNat = 11 ∨ c.toNat = 12

/-- `toLowerCase`, per character. -/
def jsLower (s : List Char) : List Char :=
  s.map Char.toLower

/-- `trim()`: strip leading and trailing whitespace. -/
def jsTrim (l : List Char) : List Char :=
  ((l.dropWhile isWsChar).reverse.dropWhile isWsChar).reverse

/-- The maximal runs of characters satisfying `p` (the accumulator holds
the current run reversed). -/
def runsGo (p : Char → Bool) : List Char → List Char → List (List Char)
  | [], cur => if cur.isEmpty then [] else [cur.reverse]
  | c :: cs, cur =>
    if p c then runsGo p cs (c :: cur)
    else if cur.isEmpty then runsGo p cs []
    else cur.reverse :: runsGo p cs []

/-- `tokenize`: lowercase, split on runs of non-alphanumerics, keep
tokens of length ≥ 2.  (JS `split` also emits empty edge tokens; the
length filter removes them, so only the maximal runs are produced.) -/
def tokenize (query : String) : List (List Char) :=
  (runsGo isAlnum (jsLower query.data) []).filter fun t => 2 ≤ t.length

/-- `content.split(/\s+/).filter(Boolean).length`. -/
def countWords (s : List Char) : Nat :=
  (runsGo (fun c => ¬ isWsChar c) s []).length

/-- The occurrence-counting loop of `search` (`indexOf`, then advance by
the token's length); the advance is rendered as a skip counter so the
recursion is structural.  The `needle ≠ []` guard only rules out the
empty needle, which the caller never produces (tokens have length ≥ 2). -/
def countOccurGo (needle : List Char) : Nat → List Char → Nat
  | _, [] => 0
  | skip + 1, _ :: t => countOccurGo needle skip t
  | 0, c :: t =>
    if needle.isPrefixOf (c :: t) ∧ needle ≠ [] then
      1 + countOccurGo needle (needle.length - 1) t
    else countOccurGo needle 0 t

/-- Occurrences of `needle` in `hay`, non-overlapping left to right. -/
def countOccur (needle hay : List Char) : Nat :=
  countOccurGo needle 0 hay

/-- The loop body of `while (s < e && !isWs(text[s])) s++`, with the
remaining iteration count `e - s` as structural fuel.  Out-of-range
positions read as a non-whitespace placeholder (JS
`/\s/.test(undefined)` is false). -/
def moveRightGo (text : List Char) : Nat → Nat → Nat
  | 0, s => s
  | fuel + 1, s =>
    if ¬ isWsChar (text.getD s 'x') then moveRightGo text fuel (s + 1) else s

/-- `while (s < e && !isWs(text[s])) s++`. -/
def moveRight (text : List Char) (e s : Nat) : Nat :=
  moveRightGo text (e - s) s

/-- The loop body of `while (e > s && !isWs(text[e-1])) e--`, with the
remaining iteration count `e - s` as structural fuel. -/
def moveLeftGo (text : List Char) : Nat → Nat → Nat
  | 0, e => e
  | fuel + 1, e =>
    if ¬ isWsChar (text.getD (e - 1) 'x') then moveLeftGo text fuel (e - 1) else e

/-- `while (e > s && !isWs(text[e-1])) e--`. -/
def moveLeft (text : List Char) (s e : Nat) : Nat :=
  moveLeftGo text (e - s) e

/-- `trimToWordBoundary`: move the start right and the end left to the
nearest whitespace boundary, slice, then `trim()`. -/
def trimToWordBoundary (text : List Char) (start e0 : Nat) : List Char :=
  let s1 :=
    if 0 < start ∧ ¬ isWsChar (text.getD (start - 1) 'x') then moveRight text e0 start
    else start
  let e1 :=
    if e0 < text.length ∧ ¬ isWsChar (text.getD e0 'x') then moveLeft text s1 e0
    else e0
  jsTrim ((text.drop s1).take (e1 - s1))

/-- The match-window scan of `extractHighlights` for one token: at each
match position `pos` push the window `[max(0, pos-60), min(len, pos+60))`,
advance by the token length (rendered as a structural skip counter), and
stop this token's scan once ten windows have accumulated. -/
def windowsGo (needle : List Char) (contentLen : Nat) :
    Nat → Nat → List Char → List (Nat × Nat) → List (Nat × Nat)
  | _, _, [], wins => wins
  | skip + 1, pos, _ :: t, wins => windowsGo needle contentLen skip (pos + 1) t wins
  | 0, pos, c :: t, wins =>
    if needle.isPrefixOf (c :: t) ∧ needle ≠ [] then
      if 10 ≤ (wins ++ [(pos - 60, min contentLen (pos + 60))]).length then
        wins ++ [(pos - 60, min contentLen (pos + 60))]
      else
        windowsGo needle contentLen (needle.length - 1) (pos + 1) t
          (wins ++ [(pos - 60, min contentLen (pos + 60))])
    else windowsGo needle contentLen 0 (pos + 1) t wins

/-- All match windows of all tokens, in token order (each token's scan
restarts at position 0 of the lowercased content). -/
def allWindows (tokens : List (List Char)) (lower : List Char)
    (contentLen : Nat) : List (Nat × Nat) :=
  tokens.foldl (fun wins tok => windowsGo tok contentLen 0 0 lower wins) []

/-- `windows.sort((a, b) => a[0] - b[0])` (stable). -/
def sortWinsByStart (ws : List (Nat × Nat)) : List (Nat × Nat) :=
  ws.insertionSort fun a b => a.1 ≤ b.1

/-- The merge loop of `extractHighlights` (the accumulator is the merged
list reversed): extend the previous window when the next one starts
inside it, and stop once three merged windows exist. -/
def mergeWinsGo : List (Nat × Nat) → List (Nat × Nat) → List (Nat × Nat)
  | [], acc => acc
  | (s, e) :: ws, acc =>
    match acc with
    | [] =>
      if 3 ≤ ([((s : Nat), (e : Nat))] : List (Nat × Nat)).length then [(s, e)]
      else mergeWinsGo ws [(s, e)]
    | (ls, le) :: rest =>
      if s ≤ le then
        if 3 ≤ ((ls, max le e) :: rest).length then (ls, max le e) :: rest
        else mergeWinsGo ws ((ls, max le e) :: rest)
      else
        if 3 ≤ ((s, e) :: (ls, le) :: rest).length then (s, e) :: (ls, le) :: rest
        else mergeWinsGo ws ((s, e) :: (ls, le) :: rest)

/-- `extractHighlights`: collect windows, sort by start, merge
overlapping ones (stopping at three), trim each to word boundaries, and
keep the non-empty snippets. -/
def extractHighlights (rawContent : List Char) (tokens : List (List Char)) :
    List String :=
  let merged := (mergeWinsGo (sortWinsByStart
    (allWindows tokens (jsLower rawContent) rawContent.length)) []).reverse
  (merged.take 3).filterMap fun w =>
    if (trimToWordBoundary rawContent w.1 w.2).isEmpty then none
    else some (String.mk (trimToWordBoundary rawContent w.1 w.2))

/-- The backtick character, and a fenced-code delimiter ` ``` `. -/
def fenceChar : Char := Char.ofNat 96

/-- The three-backtick fence. -/
def fence : List Char := [fenceChar, fenceChar, fenceChar]

/-- The index of the first closing-fence occurrence for the lazy
`/```[\s\S]*?```/` body, or `none` when no further fence exists. -/
def fenceIdx : List Char → Option Nat
  | [] => none
  | c :: t =>
    if fence.isPrefixOf (c :: t) then some 0
    else (fenceIdx t).map (· + 1)

/-- `stripCodeBlocks`'s scan: replace each lazily-matched ` ```…``` `
span with a single space; an unclosed fence (no further fence in the
text) matches nothing and the remainder is kept as is.  The first
argument counts the characters of a matched span still to be consumed
(the two remaining open-fence backticks, the `k`-character lazy body and
the three closing backticks), keeping the recursion structural. -/
def stripFenceGo : Nat → List Char → List Char
  | _, [] => []
  | skip + 1, _ :: t => stripFenceGo skip t
  | 0, c :: t =>
    if fence.isPrefixOf (c :: t) then
      match fenceIdx (t.drop 2) with
      | some k => ' ' :: stripFenceGo (k + 5) t
      | none => c :: t
    else c :: stripFenceGo 0 t

/-- `stripCodeBlocks` on a string. -/
def stripCodeBlocks (text : String) : String :=
  String.mk (stripFenceGo 0 text.data)

/-- `String.includes`: `needle` occurs as a contiguous substring. -/
def containsSub (needle : List Char) : List Char → Bool
  | [] => needle.isEmpty
  | c :: t => needle.isPrefixOf (c :: t) || containsSub needle t

/-- `SearchEntry` from `search.ts`. -/
structure SearchEntry where
  id : String
  source : SessionSource
  title : String
  cwd : String
  date : TStr
  content : List String
deriving DecidableEq

/-- `SearchResult` from `search.ts`; the score is an exact fraction. -/
structure SearchResult where
  entry : SearchEntry
  score : Frac
  highlights : List String
deriving DecidableEq

/-- The `source` option: "all" or one concrete source. -/
inductive SourceFilter where
  | all
  | only (s : SessionSource)
deriving DecidableEq

/-- `SearchOptions` (both fields optional; defaults 20 and "all"). -/
structure SearchOptions where
  limit : Option Nat := none
  source : Option SourceFilter := none
deriving DecidableEq

/-- The state of a `SearchIndex` instance: the entry list and the
session list remembered for lazy rebuilds. -/
structure SearchState where
  entries : List SearchEntry := []
  storedSessions : Option (List SessionMeta) := none
deriving DecidableEq

/-- `_doBuild`'s entry construction: load each session's detail through
the imported `getSession` (a parameter, mirroring the import boundary),
keep the trimmed-nonempty user/assistant message texts with fenced code
blocks stripped; sessions that fail to load are skipped. -/
def buildEntries (getSessionF : String → Option SessionDetail)
    (sessions : List SessionMeta) : List SearchEntry :=
  sessions.filterMap fun meta =>
    match getSessionF meta.id with
    | none => none
    | some detail => some {
        id := meta.id,
        source := meta.source,
        title := strOr meta.title meta.id,
        cwd := meta.cwd,
        date := meta.updatedAt,
        content := detail.events.filterMap fun ev =>
          if ev.type = some "user.message" ∨ ev.type = some "assistant.message" then
            if (jsTrim (ev.data.content.getD "").data).isEmpty then none
            else some (stripCodeBlocks (ev.data.content.getD ""))
          else none }

namespace SearchIndex

/-- `_doBuild(sessions)`: rebuild the entry list. -/
def doBuild (getSessionF : String → Option SessionDetail)
    (sessions : List SessionMeta) (st : SearchState) : SearchState :=
  { st with entries := buildEntries getSessionF sessions }

/-- `buildIndex(sessions)`: remember the sessions; a no-op when entries
already exist, otherwise build. -/
def buildIndex (getSessionF : String → Option SessionDetail)
    (sessions : List SessionMeta) (st : SearchState) : SearchState :=
  let st' := { st with storedSessions := some sessions }
  if 0 < st'.entries.length then st'
  else doBuild getSessionF sessions st'

/-- `clear()`: empty the entries, keep the remembered session list. -/
def clear (st : SearchState) : SearchState :=
  { st with entries := [] }

end SearchIndex

/-- The per-entry scoring of `search`: occurrences over word count, plus
0.5 for a title substring hit and 0.2 for a working-directory hit, per
token; entries with score ≤ 0 are dropped. -/
def scoreEntry (tokens : List (List Char)) (srcFilter : SourceFilter)
    (entry : SearchEntry) : Option SearchResult :=
  if (match srcFilter with
      | .all => false
      | .only s => entry.source ≠ s : Bool) then none
  else
    let joinedRaw := (" ".intercalate entry.content).data
    let joined := jsLower joinedRaw
    let wc : Nat := max (countWords joined) 1
    let score : Frac := tokens.foldl (fun acc tok =>
      Frac.add (Frac.add
        (if 0 < countOccur tok joined then
          Frac.add acc ⟨countOccur tok joined, wc⟩
         else acc)
        (if containsSub tok (jsLower entry.title.data) then ⟨1, 2⟩ else ⟨0, 1⟩))
        (if containsSub tok (jsLower entry.cwd.data) then ⟨1, 5⟩ else ⟨0, 1⟩)) ⟨0, 1⟩
    if Frac.le score ⟨0, 1⟩ then none
    else some { entry := entry, score := score,
                highlights := extractHighlights joinedRaw tokens }

/-- `results.sort((a, b) => b.score - a.score)` (stable, descending). -/
def sortByScoreDesc (rs : List SearchResult) : List SearchResult :=
  rs.insertionSort fun a b => Frac.le b.score a.score

/-- The scoring/ranking body of `search` over a fixed entry list. -/
def searchCore (query : String) (opts : SearchOptions)
    (entries : List SearchEntry) : List SearchResult :=
  let tokens := tokenize query
  if tokens.isEmpty then []
  else
    (sortByScoreDesc (entries.filterMap
      (scoreEntry tokens (opts.source.getD .all)))).take (opts.limit.getD 20)

namespace SearchIndex

/-- `search(query, options)`: blank queries return `[]` untouched; an
empty entry list triggers a lazy rebuild from the remembered sessions
(or returns `[]` if none were ever supplied); then score, rank and
truncate. -/
def search (getSessionF : String → Option SessionDetail) (query : String)
    (opts : SearchOptions) (st : SearchState) :
    List SearchResult × SearchState :=
  if (jsTrim query.data).isEmpty then ([], st)
  else
    match st.entries, st.storedSessions with
    | [], none => ([], st)
    | [], some ss =>
      ((doBuild getSessionF ss st).entries |> searchCore query opts,
        doBuild getSessionF ss st)
    | es, _ => (searchCore query opts es, st)

end SearchIndex

/-! ### Lemmas about highlight windows (C8) -/

theorem windowsGo_span (needle : List Char) (contentLen : Nat) :
    ∀ (rest : List Char) (skip pos : Nat) (wins : List (Nat × Nat))
      (w : Nat × Nat),
      w ∈ windowsGo needle contentLen skip pos rest wins →
      w ∈ wins ∨ w.2 - w.1 ≤ 120 := by
  intro rest
  induction rest with
  | nil =>
    intro skip pos wins w hw
    cases skip <;> simp only [windowsGo] at hw <;> exact Or.inl hw
  | cons c t ih =>
    intro skip pos wins w hw
    cases skip with
    | succ k =>
      simp only [windowsGo] at hw
      exact ih k (pos + 1) wins w hw
    | zero =>
      simp only [windowsGo] at hw
      by_cases hp : needle.isPrefixOf (c :: t) = true ∧ needle ≠ []
      · rw [if_pos hp] at hw
        by_cases h10 :
            10 ≤ (wins ++ [(pos - 60, min contentLen (pos + 60))]).length
        · rw [if_pos h10] at hw
          rcases List.mem_append.mp hw with h | h
          · exact Or.inl h
          · right
            simp only [List.mem_singleton] at h
            subst h
            simp only []
            omega
        · rw [if_neg h10] at hw
          rcases ih _ _ _ w hw with h | h
          · rcases List.mem_append.mp h with h' | h'
            · exact Or.inl h'
            · right
              simp only [List.mem_singleton] at h'
              subst h'
              simp only []
              omega
          · exact Or.inr h
      · rw [if_neg hp] at hw
        exact ih 0 (pos + 1) wins w hw

theorem foldlWindows_span (lower : List Char) (contentLen : Nat) :
    ∀ (toks : List (List Char)) (wins : List (Nat × Nat)),
      (∀ w ∈ wins, w.2 - w.1 ≤ 120) →
      ∀ w ∈ toks.foldl
          (fun ws tok => windowsGo tok contentLen 0 0 lower ws) wins,
        w.2 - w.1 ≤ 120 := by
  intro toks
  induction toks with
  | nil => intro wins hinv w hw; exact hinv w hw
  | cons tok rest ih =>
    intro wins hinv w hw
    simp only [List.foldl_cons] at hw
    refine ih _ ?_ w hw
    intro w' hw'
    rcases windowsGo_span tok contentLen lower 0 0 wins w' hw' with h | h
    · exact hinv w' h
    · exact h

/-! ### Claims C8, C9 -/

/-- C8 (amended): every *single-match* window collected by the highlight
extractor spans at most 120 characters (up to 60 on each side of the
match start, end-exclusive); merging overlapping windows, however, can
produce returned snippets longer than 121 characters (see the
counterexample). -/
theorem search_window_span_le_120 (content : List Char)
    (tokens : List (List Char)) (w : Nat × Nat)
    (hw : w ∈ allWindows tokens (jsLower content) content.length) :
    w.2 - w.1 ≤ 120 := by
  unfold allWindows at hw
  exact foldlWindows_span (jsLower content) content.length tokens []
    (by intro w' hw'; cases hw') w hw

/-- C8 witness: the single window collected for token "ab" in "abc". -/
theorem search_window_span_le_120_witness :
    ((0, 3) : Nat × Nat).2 - ((0, 3) : Nat × Nat).1 ≤ 120 :=
  search_window_span_le_120 "abc".data (tokenize "ab") (0, 3) (by decide)

/-- A 160-character content with token matches at offsets 0 and 100 and
no whitespace, so the two 120-capped windows merge to one 160-character
snippet that word-boundary trimming cannot shrink. -/
def cxLongContent : String :=
  String.mk ((['a', 'b'] ++ List.replicate 98 'x')
    ++ (['a', 'b'] ++ List.replicate 58 'x'))

/-- The search entry holding the long content. -/
def cxEntry : SearchEntry :=
  { id := "cx", source := .cli, title := "t", cwd := "", date := .absent,
    content := [cxLongContent] }

/-- An index state holding only that entry. -/
def cxState : SearchState := { entries := [cxEntry], storedSessions := none }

set_option maxRecDepth 8192 in
/-- C8 counterexample: searching "ab" over the 160-character content
returns a single highlight of length 160 — more than 121 characters —
because the overlapping match windows at offsets 0 and 100 are merged
before trimming, and trimming only shrinks. -/
theorem search_highlight_exceeds_121 :
    ((SearchIndex.search (fun _ => none) "ab" {} cxState).1.map
        (fun r => r.highlights.map (fun h => h.length))) = [[160]]
    ∧ ¬ (160 ≤ 121) := by
  constructor
  · decide
  · decide

/-- C9: after `clear()`, the next `search()` with a non-blank query
rebuilds the entry list from the session list remembered by the last
`buildIndex` — through the *current* `getSession` (`getF₂`), so any
change to the underlying session data since the original build (`getF₁`)
is reflected — and searches those rebuilt entries, with no further
explicit `buildIndex` call. -/
theorem search_after_clear_rebuilds
    (getF₁ getF₂ : String → Option SessionDetail)
    (ss : List SessionMeta) (st₀ : SearchState)
    (q : String) (opts : SearchOptions)
    (hq : (jsTrim q.data).isEmpty = false) :
    SearchIndex.search getF₂ q opts
        (SearchIndex.clear (SearchIndex.buildIndex getF₁ ss st₀))
      = (searchCore q opts (buildEntries getF₂ ss),
         { entries := buildEntries getF₂ ss, storedSessions := some ss }) := by
  have hstate :
      SearchIndex.clear (SearchIndex.buildIndex getF₁ ss st₀)
        = { entries := [], storedSessions := some ss } := by
    unfold SearchIndex.buildIndex SearchIndex.clear SearchIndex.doBuild
    dsimp only []
    split <;> rfl
  rw [hstate]
  unfold SearchIndex.search SearchIndex.doBuild
  rw [if_neg (by simp [hq])]

/-- A session row for the rebuild witness. -/
def c9Meta : SessionMeta :=
  { id := "m1", cwd := "", createdAt := .absent, updatedAt := .absent,
    status := .completed, source := .cli }

/-- The session's detail at build time (content "hello"). -/
def c9DetailOld : SessionDetail :=
  { id := "m1", cwd := "", createdAt := .absent, updatedAt := .absent,
    status := .completed, source := .cli,
    events := [{ type := some "user.message",
                 data := { content := some "hello" } }],
    duration := 0 }

/-- The session's detail after the underlying data changed
(content "world"). -/
def c9DetailNew : SessionDetail :=
  { id := "m1", cwd := "", createdAt := .absent, updatedAt := .absent,
    status := .completed, source := .cli,
    events := [{ type := some "user.message",
                 data := { content := some "world" } }],
    duration := 0 }

/-- C9 witness: build with the old detail, clear, then search with the
new detail as the current loader. -/
theorem search_after_clear_rebuilds_witness :
    SearchIndex.search (fun _ => some c9DetailNew) "world" {}
        (SearchIndex.clear
          (SearchIndex.buildIndex (fun _ => some c9DetailOld) [c9Meta] {}))
      = (searchCore "world" {}
           (buildEntries (fun _ => some c9DetailNew) [c9Meta]),
         { entries := buildEntries (fun _ => some c9DetailNew) [c9Meta],
           storedSessions := some [c9Meta] }) :=
  search_after_clear_rebuilds (fun _ => some c9DetailOld)
    (fun _ => some c9DetailNew) [c9Meta] {} "world" {} (by decide)
